import Mathlib

/-!
Shallow embedding of the parallax animation renderer
(`parallax_renderer.py`, class `ParallaxRenderer`).

Modelling conventions:
* numpy arrays holding images are modelled by the structure `Img`:
  explicit height / width / channel-count fields together with a total
  pixel function `pix : ℤ → ℤ → ℕ → ℤ` (row, column, channel).  All pixel
  accesses performed by the code use integer indices that the code has
  clamped; the in-bounds claims are stated about those index values.
* Python / numpy floating point arithmetic is idealised as exact rational
  arithmetic (`ℚ`); the trigonometric camera path is idealised over `ℝ`,
  with `np.sin`, `np.cos`, `np.pi` passed as parameters so that the
  combinational structure of the code stays a computable definition.
* `int(x)` (Python) truncates toward zero: `pyInt`.
* `x // y` (Python, used with positive literal divisor 2) is floor
  division: `Int.fdiv`.
* `np.clip(v, lo, hi)` is `min hi (max lo v)`: `qclip` / `iclip`.
* `astype(np.uint8)` (the dtype of images loaded by `cv2.imread`) is a C
  cast: truncation toward zero followed by wrap-around modulo 256:
  `castU8`.
-/

namespace Tiefling

/-- Model of a numpy image array: height, width, channel count and a total
pixel function (row, column, channel). -/
structure Img where
  h : ℕ
  w : ℕ
  c : ℕ
  pix : ℤ → ℤ → ℕ → ℤ

/-- Python `int(q)`: truncation toward zero. -/
def pyInt (q : ℚ) : ℤ := if 0 ≤ q then ⌊q⌋ else ⌈q⌉

/-- numpy cast of a float to `uint8`: truncate toward zero, wrap mod 256. -/
def castU8 (q : ℚ) : ℤ := pyInt q % 256

/-- Model of `np.clip(v, lo, hi)` on rationals. -/
def qclip (v lo hi : ℚ) : ℚ := min hi (max lo v)

/-- Model of `np.clip(v, lo, hi)` on integer index arrays. -/
def iclip (v lo hi : ℤ) : ℤ := min hi (max lo v)

/-! ### Frame Sequence Producer (`create_parallax_animation`) -/

/-- Source line 35: `total_frames = int(duration * self.fps)`. -/
def total_frames (fps : ℕ) (duration : ℚ) : ℤ := pyInt (duration * fps)

/-- Source line 53: the frame loop `for frame_idx in range(total_frames)`,
emitting frame indices in loop order. -/
def frame_indices (total : ℕ) : List ℕ := List.range total

/-- Source line 55:
`progress = frame_idx / (total_frames - 1) if total_frames > 1 else 0`.
The subtraction is Python integer subtraction, the division true (float)
division. -/
def progress (total frame_idx : ℕ) : ℚ :=
  if 1 < total then (frame_idx : ℚ) / ((total - 1 : ℕ) : ℚ) else 0

/-! ### Camera Path Generator (source lines 58-60)

The code computes
`angle = progress * 2 * np.pi`,
`camera_x = np.sin(angle) * movement_range * camera_movement`,
`camera_y = np.cos(angle) * movement_range * camera_movement * 0.5`.
`np.sin`, `np.cos` and `np.pi` are external to the modelled code; they are
taken as parameters and instantiated with `Real.sin`, `Real.cos`,
`Real.pi` in the theorems. -/

/-- Source line 58: `angle = progress * 2 * np.pi`. -/
def cam_angle (np_pi progress : ℝ) : ℝ := progress * 2 * np_pi

/-- Source line 59:
`camera_x = np.sin(angle) * movement_range * camera_movement`. -/
def camera_x (np_sin : ℝ → ℝ) (np_pi progress movement_range camera_movement : ℝ) : ℝ :=
  np_sin (cam_angle np_pi progress) * movement_range * camera_movement

/-- Source line 60:
`camera_y = np.cos(angle) * movement_range * camera_movement * 0.5`. -/
def camera_y (np_cos : ℝ → ℝ) (np_pi progress movement_range camera_movement : ℝ) : ℝ :=
  np_cos (cam_angle np_pi progress) * movement_range * camera_movement * 0.5

/-! ### Displacement Field Builder (`_generate_parallax_frame`, lines 144-164) -/

/-- Source line 145: `depth_normalized = depth_map.astype(np.float32) / 255.0`,
at one pixel whose 8-bit depth value is `d`. -/
def depth_normalized (d : ℤ) : ℚ := (d : ℚ) / 255

/-- Source line 152: `displacement_scale = movement_strength * 100`. -/
def displacement_scale (movement_strength : ℚ) : ℚ := movement_strength * 100

/-- Source line 155:
`disp_x = (depth_normalized - 0.5) * offset_x * displacement_scale`. -/
def disp_x (d : ℤ) (offset_x movement_strength : ℚ) : ℚ :=
  (depth_normalized d - 0.5) * offset_x * displacement_scale movement_strength

/-- Source line 156:
`disp_y = (depth_normalized - 0.5) * offset_y * displacement_scale`. -/
def disp_y (d : ℤ) (offset_y movement_strength : ℚ) : ℚ :=
  (depth_normalized d - 0.5) * offset_y * displacement_scale movement_strength

/-- Source lines 159 and 163: `new_x = x_coords + disp_x` followed by
`new_x = np.clip(new_x, 0, w - 1)`, at a single grid position `x` with
depth value `d`. -/
def new_x (x : ℕ) (d : ℤ) (offset_x movement_strength : ℚ) (w : ℕ) : ℚ :=
  qclip ((x : ℚ) + disp_x d offset_x movement_strength) 0 ((w : ℚ) - 1)

/-- Source lines 160 and 164: `new_y = y_coords + disp_y` followed by
`new_y = np.clip(new_y, 0, h - 1)`. -/
def new_y (y : ℕ) (d : ℤ) (offset_y movement_strength : ℚ) (h : ℕ) : ℚ :=
  qclip ((y : ℚ) + disp_y d offset_y movement_strength) 0 ((h : ℚ) - 1)

/-! ### Bilinear Resampler (`_bilinear_interpolate`, lines 178-208) -/

/-- Source lines 183 and 189: `x0 = np.floor(x).astype(np.int32)` then
`x0 = np.clip(x0, 0, w - 1)` (identical formula used for `y0` with bound
`h`). -/
def interp_i0 (x : ℚ) (w : ℕ) : ℤ := iclip ⌊x⌋ 0 ((w : ℤ) - 1)

/-- Source lines 184 and 190: `x1 = x0 + 1` (the unclamped `x0`) then
`x1 = np.clip(x1, 0, w - 1)` (identical formula used for `y1`). -/
def interp_i1 (x : ℚ) (w : ℕ) : ℤ := iclip (⌊x⌋ + 1) 0 ((w : ℤ) - 1)

/-- Source lines 195-206: fractional weights `wx = x - x0`, `wy = y - y0`
(with the clamped `x0`, `y0`) and the four-corner blend
`img[y0, x0] * (1 - wx) * (1 - wy) + img[y0, x1] * wx * (1 - wy) +
img[y1, x0] * (1 - wx) * wy + img[y1, x1] * wx * wy`, before the final
dtype cast, at one output pixel and channel. -/
def blendQ (img : Img) (x y : ℚ) (ch : ℕ) : ℚ :=
  let x0 := interp_i0 x img.w
  let x1 := interp_i1 x img.w
  let y0 := interp_i0 y img.h
  let y1 := interp_i1 y img.h
  let wx := x - (x0 : ℚ)
  let wy := y - (y0 : ℚ)
  (img.pix y0 x0 ch : ℚ) * (1 - wx) * (1 - wy) +
    (img.pix y0 x1 ch : ℚ) * wx * (1 - wy) +
    (img.pix y1 x0 ch : ℚ) * (1 - wx) * wy +
    (img.pix y1 x1 ch : ℚ) * wx * wy

/-- Source line 208: `result.astype(img.dtype)` applied to the blend, with
`img.dtype = uint8`. -/
def bilinear_interpolate (img : Img) (x y : ℚ) (ch : ℕ) : ℤ :=
  castU8 (blendQ img x y ch)

/-! ### Disocclusion Filler (`_generate_parallax_frame`, lines 169-174) -/

/-- Source line 170: `mask = np.all(result == 0, axis=2)` at one pixel:
every channel of the sampled frame is exactly zero there. -/
def is_hole (img : Img) (y x : ℤ) : Prop := ∀ ch < img.c, img.pix y x ch = 0

instance (img : Img) (y x : ℤ) : Decidable (is_hole img y x) :=
  inferInstanceAs (Decidable (∀ ch, ch < img.c → img.pix y x ch = 0))

/-- Source lines 169-174: `result[mask] = background[mask]`, where
`background = cv2.GaussianBlur(image, (51, 51), 20)` is the blurred copy
of the original image (the blur itself is external `cv2` code, so the
blurred image enters the model as an argument).  The guard
`if np.any(mask)` is behaviourally the identity when no pixel is masked,
so the per-pixel model needs no separate case for it. -/
def fill_holes (sampled background : Img) : Img :=
  { h := sampled.h, w := sampled.w, c := sampled.c,
    pix := fun y x ch =>
      if is_hole sampled y x then background.pix y x ch else sampled.pix y x ch }

/-! ### Aspect-Fit Resampler (`_resize_with_aspect_ratio`, lines 81-129) -/

/-- Source line 89: `scale = max(target_width / w, target_height / h)`. -/
def fit_scale (w h target_width target_height : ℕ) : ℚ :=
  max ((target_width : ℚ) / (w : ℚ)) ((target_height : ℚ) / (h : ℚ))

/-- Source line 90: `new_w = int(w * scale)`. -/
def fit_new_w (w h target_width target_height : ℕ) : ℤ :=
  pyInt ((w : ℚ) * fit_scale w h target_width target_height)

/-- Source line 90: `new_h = int(h * scale)`. -/
def fit_new_h (w h target_width target_height : ℕ) : ℤ :=
  pyInt ((h : ℚ) * fit_scale w h target_width target_height)

/-- Source lines 99-100: `start_x = max(0, (new_w - target_width) // 2)`
(Python floor division; the same formula gives `start_y` from `new_h`
and `target_height`). -/
def crop_start (new_w : ℤ) (target : ℕ) : ℤ :=
  max 0 ((new_w - (target : ℤ)).fdiv 2)

/-- Source lines 104-105: `end_x = min(new_w, start_x + target_width)`. -/
def crop_end (new_w : ℤ) (target : ℕ) : ℤ :=
  min new_w (crop_start new_w target + (target : ℤ))

/-- Source lines 107-108: `crop_w = end_x - start_x`. -/
def crop_len (new_w : ℤ) (target : ℕ) : ℤ :=
  crop_end new_w target - crop_start new_w target

/-- Source lines 110-111: `result_start_x = (target_width - crop_w) // 2`. -/
def place_start (new_w : ℤ) (target : ℕ) : ℤ :=
  ((target : ℤ) - crop_len new_w target).fdiv 2

/-- Source lines 116-127 (colour branch; the grayscale branch at lines
103-114 is the same formula without the channel axis): the zero-filled
target-sized buffer `result = np.zeros((target_height, target_width, c))`
whose central region
`result[result_start_y : result_start_y + crop_h,
result_start_x : result_start_x + crop_w]` is the slice
`resized[start_y : end_y, start_x : end_x]` of the rescaled source.  The
rescaled source is `cv2.resize(img, (new_w, new_h), INTER_LANCZOS4)` -
external `cv2` code - so its pixel function `resizedPix` enters the model
as an argument, while its dimensions `new_w`, `new_h` are computed by the
modelled code. -/
def crop_place (new_w new_h : ℤ) (target_width target_height : ℕ)
    (resizedPix : ℤ → ℤ → ℕ → ℤ) (channels : ℕ) : Img :=
  { h := target_height, w := target_width, c := channels,
    pix := fun y x ch =>
      if place_start new_h target_height ≤ y ∧
          y < place_start new_h target_height + crop_len new_h target_height ∧
          place_start new_w target_width ≤ x ∧
          x < place_start new_w target_width + crop_len new_w target_width then
        resizedPix (crop_start new_h target_height + (y - place_start new_h target_height))
          (crop_start new_w target_width + (x - place_start new_w target_width)) ch
      else 0 }

/-- Source lines 81-129, `_resize_with_aspect_ratio` as a whole: scale
computation, rescale (external, represented by `resizedPix`), then
center crop / pad into the target-sized zero buffer. -/
def resize_with_aspect (img : Img) (target_width target_height : ℕ)
    (resizedPix : ℤ → ℤ → ℕ → ℤ) : Img :=
  crop_place (fit_new_w img.w img.h target_width target_height)
    (fit_new_h img.w img.h target_width target_height)
    target_width target_height resizedPix img.c

/-! ### Concrete fixtures used by counterexamples and witnesses -/

/-- Concrete 1×2 single-channel image: pixel values 0 and 1. -/
def ex_img2 : Img := { h := 1, w := 2, c := 1, pix := fun _ x _ => if x = 1 then 1 else 0 }

/-- Concrete 1×1 single-channel image with constant pixel value 7. -/
def ex_img7 : Img := { h := 1, w := 1, c := 1, pix := fun _ _ _ => 7 }

/-- Constant-zero pixel function, standing in for an external rescaled
buffer in concrete instantiations. -/
def zero_pix : ℤ → ℤ → ℕ → ℤ := fun _ _ _ => 0

/-! ### Shared helper lemmas -/

/-- Python truncation toward zero agrees with the floor on nonnegative
arguments. -/
lemma pyInt_eq_floor {q : ℚ} (h : 0 ≤ q) : pyInt q = ⌊q⌋ := if_pos h

/-- The uint8 cast is plain truncation (no wrap-around) for blends that
stay inside the 8-bit range. -/
lemma castU8_eq_floor {q : ℚ} (h0 : 0 ≤ q) (h1 : q ≤ 255) : castU8 q = ⌊q⌋ := by
  have hfl0 : 0 ≤ ⌊q⌋ := Int.floor_nonneg.mpr h0
  have hfl255 : ⌊q⌋ ≤ 255 := by
    have : (⌊q⌋ : ℚ) ≤ 255 := le_trans (Int.floor_le q) h1
    exact_mod_cast this
  unfold castU8
  rw [pyInt_eq_floor h0]
  exact Int.emod_eq_of_lt hfl0 (by omega)

/-- The clamp to a rational interval with ordered endpoints lands inside
the interval. -/
lemma qclip_bounds (v lo hi : ℚ) (h : lo ≤ hi) :
    lo ≤ qclip v lo hi ∧ qclip v lo hi ≤ hi :=
  ⟨le_min h (le_max_left lo v), min_le_left hi _⟩

/-- Both clamped corner indices of the Bilinear Resampler lie inside
the index range 0 .. w − 1 whenever the image is non-empty, whatever the
sample coordinate. -/
lemma interp_bounds (q : ℚ) (w : ℕ) (hw : 1 ≤ w) :
    0 ≤ interp_i0 q w ∧ interp_i0 q w ≤ (w : ℤ) - 1 ∧
    0 ≤ interp_i1 q w ∧ interp_i1 q w ≤ (w : ℤ) - 1 := by
  have h1 : (1 : ℤ) ≤ (w : ℤ) := by exact_mod_cast hw
  unfold interp_i0 interp_i1 iclip
  omega

/-- A sample coordinate already inside 0 .. w − 1 passes the floor-clamp
unchanged. -/
lemma interp_i0_eq {x : ℚ} {w : ℕ} (h0 : 0 ≤ x) (h1 : x ≤ (w : ℚ) - 1) :
    interp_i0 x w = ⌊x⌋ := by
  have hf0 : 0 ≤ ⌊x⌋ := Int.floor_nonneg.mpr h0
  have hf1 : ⌊x⌋ ≤ (w : ℤ) - 1 := by
    have := Int.floor_le_floor h1
    rwa [show ((w : ℚ) - 1) = (((w : ℤ) - 1 : ℤ) : ℚ) by push_cast; ring,
      Int.floor_intCast] at this
  unfold interp_i0 iclip
  omega

/-- The four-corner blend with weights built from a, b in the unit square
lies between the minimum and the maximum of the four corner values. -/
lemma blend_bounds (p00 p01 p10 p11 a b : ℚ)
    (ha0 : 0 ≤ a) (ha1 : a ≤ 1) (hb0 : 0 ≤ b) (hb1 : b ≤ 1) :
    min (min p00 p01) (min p10 p11) ≤
      p00 * (1 - a) * (1 - b) + p01 * a * (1 - b) + p10 * (1 - a) * b + p11 * a * b ∧
    p00 * (1 - a) * (1 - b) + p01 * a * (1 - b) + p10 * (1 - a) * b + p11 * a * b ≤
      max (max p00 p01) (max p10 p11) := by
  have hM00 : p00 ≤ max (max p00 p01) (max p10 p11) := le_max_of_le_left (le_max_left _ _)
  have hM01 : p01 ≤ max (max p00 p01) (max p10 p11) := le_max_of_le_left (le_max_right _ _)
  have hM10 : p10 ≤ max (max p00 p01) (max p10 p11) := le_max_of_le_right (le_max_left _ _)
  have hM11 : p11 ≤ max (max p00 p01) (max p10 p11) := le_max_of_le_right (le_max_right _ _)
  have hN00 : min (min p00 p01) (min p10 p11) ≤ p00 := min_le_of_left_le (min_le_left _ _)
  have hN01 : min (min p00 p01) (min p10 p11) ≤ p01 := min_le_of_left_le (min_le_right _ _)
  have hN10 : min (min p00 p01) (min p10 p11) ≤ p10 := min_le_of_right_le (min_le_left _ _)
  have hN11 : min (min p00 p01) (min p10 p11) ≤ p11 := min_le_of_right_le (min_le_right _ _)
  have w1 : (0 : ℚ) ≤ (1 - a) * (1 - b) := mul_nonneg (by linarith) (by linarith)
  have w2 : (0 : ℚ) ≤ a * (1 - b) := mul_nonneg ha0 (by linarith)
  have w3 : (0 : ℚ) ≤ (1 - a) * b := mul_nonneg (by linarith) hb0
  have w4 : (0 : ℚ) ≤ a * b := mul_nonneg ha0 hb0
  constructor
  · nlinarith [mul_le_mul_of_nonneg_right hN00 w1, mul_le_mul_of_nonneg_right hN01 w2,
      mul_le_mul_of_nonneg_right hN10 w3, mul_le_mul_of_nonneg_right hN11 w4]
  · nlinarith [mul_le_mul_of_nonneg_right hM00 w1, mul_le_mul_of_nonneg_right hM01 w2,
      mul_le_mul_of_nonneg_right hM10 w3, mul_le_mul_of_nonneg_right hM11 w4]

/-- The crop window and its placement into the target buffer are
well-formed for every rescaled size, including sizes smaller than the
target: the window fits inside the rescaled buffer, its length is at most
the target length, and its placement fits inside the target buffer. -/
lemma crop_region_bounds (new_w : ℤ) (tw : ℕ) (hw : 0 ≤ new_w) (htw : 1 ≤ tw) :
    0 ≤ crop_start new_w tw ∧
    crop_start new_w tw + crop_len new_w tw ≤ new_w ∧
    0 ≤ crop_len new_w tw ∧ crop_len new_w tw ≤ (tw : ℤ) ∧
    0 ≤ place_start new_w tw ∧
    place_start new_w tw + crop_len new_w tw ≤ (tw : ℤ) := by
  have hfd : ∀ a : ℤ, a.fdiv 2 = a / 2 := fun a => Int.fdiv_eq_ediv a (by norm_num)
  have htw' : (1 : ℤ) ≤ (tw : ℤ) := by exact_mod_cast htw
  unfold place_start crop_len crop_end crop_start
  rw [hfd, hfd]
  omega

/-! ### Claim theorems -/

/-- Claim C2, counterexample: at fps = 1 and durationSeconds = 9/10 the
code produces `int(0.9) = 0` frames, while the claim demands
`round(0.9) = 1` frames and a total of at least 1. -/
theorem total_frames_truncates_counterexample :
    total_frames 1 (9 / 10) ≠ round ((9 / 10 : ℚ) * ((1 : ℕ) : ℚ)) ∧
    ¬ (1 ≤ total_frames 1 (9 / 10)) := by
  constructor
  · norm_num [total_frames, pyInt, round_eq]
  · norm_num [total_frames, pyInt]

/-- Claim C2, amended: for integer fps > 0 and rational durationSeconds
> 0 the total frame count is the floor (truncation toward zero) of
durationSeconds × fps, not its rounding, and it is at least 1 exactly when
durationSeconds × fps is at least 1 (so it is 0 whenever
durationSeconds × fps < 1). -/
theorem total_frames_eq_floor (fps : ℕ) (d : ℚ) (hf : 0 < fps) (hd : 0 < d) :
    total_frames fps d = ⌊d * (fps : ℚ)⌋ ∧
    (1 ≤ total_frames fps d ↔ 1 ≤ d * (fps : ℚ)) := by
  have hnn : 0 ≤ d * (fps : ℚ) := by positivity
  refine ⟨pyInt_eq_floor hnn, ?_⟩
  rw [total_frames, pyInt_eq_floor hnn]
  constructor
  · intro h
    exact_mod_cast le_trans (by exact_mod_cast h) (Int.floor_le _)
  · intro h
    exact Int.le_floor.mpr (by exact_mod_cast h)

/-- Claim C2, witness for the amended theorem at fps = 30,
durationSeconds = 2. -/
theorem total_frames_eq_floor_witness :
    total_frames 30 2 = ⌊(2 : ℚ) * ((30 : ℕ) : ℚ)⌋ ∧
    (1 ≤ total_frames 30 2 ↔ 1 ≤ (2 : ℚ) * ((30 : ℕ) : ℚ)) :=
  total_frames_eq_floor 30 2 (by norm_num) (by norm_num)

/-- Claim C1: with fps 30 and durationSeconds 2 the renderer produces
exactly 60 frames, in strictly increasing frame-index order, the first at
progress 0 and the last at progress 1; in general frame i of totalFrames
is computed at progress i/(totalFrames − 1) when totalFrames > 1 and at
progress 0 when totalFrames = 1, and progress is strictly increasing in
the frame index. -/
theorem frame_sequence_progress :
    (frame_indices (total_frames 30 2).toNat).length = 60 ∧
    List.Chain' (fun a b => a < b) (frame_indices (total_frames 30 2).toNat) ∧
    progress (total_frames 30 2).toNat 0 = 0 ∧
    progress (total_frames 30 2).toNat 59 = 1 ∧
    (∀ i j : ℕ, i < j → j < (total_frames 30 2).toNat →
      progress (total_frames 30 2).toNat i < progress (total_frames 30 2).toNat j) ∧
    (∀ total i : ℕ, 1 < total → i < total →
      progress total i = (i : ℚ) / ((total : ℚ) - 1)) ∧
    (∀ i : ℕ, progress 1 i = 0) := by
  have h60 : total_frames 30 2 = 60 := by norm_num [total_frames, pyInt]
  have h60n : (total_frames 30 2).toNat = 60 := by rw [h60]; rfl
  rw [h60n]
  refine ⟨by simp [frame_indices], ?_, by norm_num [progress], by norm_num [progress],
    ?_, ?_, ?_⟩
  · exact (List.pairwise_lt_range 60).chain'
  · intro i j hij hj
    have hi' : (i : ℚ) < (j : ℚ) := by exact_mod_cast hij
    simp only [progress]
    norm_num
    gcongr
  · intro total i h1 _
    have hc : ((total - 1 : ℕ) : ℚ) = (total : ℚ) - 1 := by
      have h1' : 1 ≤ total := le_of_lt h1
      push_cast [Nat.cast_sub h1']
      ring
    simp [progress, h1, hc]
  · intro i; simp [progress]

/-- Claim C1, witness for the hypothesis-bearing conjuncts: frame 2 of a
5-frame render is computed at progress 2/(5 − 1). -/
theorem frame_sequence_progress_witness :
    progress 5 2 = (2 : ℚ) / ((5 : ℚ) - 1) :=
  frame_sequence_progress.2.2.2.2.2.1 5 2 (by norm_num) (by norm_num)

/-- Claim C6: instantiating the external trigonometric functions with the
real sine, cosine and π, the camera path is
x = sin(p·2π)·movementRange·cameraMovement and
y = cos(p·2π)·movementRange·cameraMovement·(1/2); the vertical excursion
is at most half the horizontal amplitude (which x attains at p = 1/4),
and a single-frame animation uses progress 0, where the horizontal offset
is 0. -/
theorem camera_path_formula (p r m : ℝ) (i : ℕ) :
    camera_x Real.sin Real.pi p r m = Real.sin (p * (2 * Real.pi)) * r * m ∧
    camera_y Real.cos Real.pi p r m = Real.cos (p * (2 * Real.pi)) * r * m * (1 / 2) ∧
    |camera_y Real.cos Real.pi p r m| ≤ |r * m| / 2 ∧
    camera_x Real.sin Real.pi (1 / 4 : ℝ) r m = r * m ∧
    progress 1 i = 0 ∧
    camera_x Real.sin Real.pi (((progress 1 i : ℚ) : ℝ)) r m = 0 := by
  have hang : ∀ q : ℝ, cam_angle Real.pi q = q * (2 * Real.pi) := by
    intro q; unfold cam_angle; ring
  refine ⟨?_, ?_, ?_, ?_, by simp [progress], ?_⟩
  · unfold camera_x; rw [hang]
  · unfold camera_y; rw [hang]; norm_num
  · unfold camera_y
    have h1 : |Real.cos (cam_angle Real.pi p)| ≤ 1 := Real.abs_cos_le_one _
    have h2 : |Real.cos (cam_angle Real.pi p) * r * m * 0.5| =
        |Real.cos (cam_angle Real.pi p)| * |r * m| * (1 / 2) := by
      rw [abs_mul, abs_mul, abs_mul, abs_mul r m]
      rw [show |(0.5 : ℝ)| = 1 / 2 by norm_num]
      ring
    rw [h2]
    nlinarith [abs_nonneg (r * m), abs_nonneg (Real.cos (cam_angle Real.pi p))]
  · unfold camera_x
    rw [hang]
    rw [show (1 / 4 : ℝ) * (2 * Real.pi) = Real.pi / 2 by ring, Real.sin_pi_div_two]
    ring
  · have h0 : ((progress 1 i : ℚ) : ℝ) = 0 := by simp [progress]
    rw [h0]
    unfold camera_x cam_angle
    simp

/-- Claim C7, counterexample: at the uniform mid-depth value 128 the
displacement is not approximately zero regardless of the camera offset;
with offset 510 and movement strength 1 it is a 100-pixel displacement in
each axis, because 128/255 − 0.5 = 1/510 ≠ 0. -/
theorem disp_mid_depth_counterexample :
    disp_x 128 510 1 = 100 ∧ disp_y 128 510 1 = 100 := by
  constructor <;>
    norm_num [disp_x, disp_y, depth_normalized, displacement_scale]

/-- Claim C7, amended: for a depth map uniformly equal to 128 the
displacement field is exactly offset × movementStrength × 10/51 in each
axis — proportional to the camera offset with a small factor (≈ 0.196),
hence close to zero for small offsets but not zero and not bounded
independently of the offset; it vanishes exactly when the offset or the
movement strength is zero.  The exact mid-depth 127.5 is not an 8-bit
value. -/
theorem disp_mid_depth_proportional (ox oy ms : ℚ) :
    disp_x 128 ox ms = ox * ms * (10 / 51) ∧
    disp_y 128 oy ms = oy * ms * (10 / 51) ∧
    (disp_x 128 ox ms = 0 ↔ ox = 0 ∨ ms = 0) := by
  have hx : disp_x 128 ox ms = ox * ms * (10 / 51) := by
    unfold disp_x depth_normalized displacement_scale; ring
  have hy : disp_y 128 oy ms = oy * ms * (10 / 51) := by
    unfold disp_y depth_normalized displacement_scale; ring
  refine ⟨hx, hy, ?_⟩
  rw [hx]
  constructor
  · intro h
    rcases mul_eq_zero.mp h with h' | h'
    · exact (mul_eq_zero.mp h').imp id id
    · exact absurd h' (by norm_num)
  · rintro (h | h) <;> rw [h] <;> ring

/-- Claim C8: after the Disocclusion Filler, a pixel of the output is
all-channels zero only if the blurred background is all-channels zero at
that pixel. -/
theorem fill_holes_no_black (sampled background : Img) (y x : ℤ)
    (hc : background.c = sampled.c)
    (h : is_hole (fill_holes sampled background) y x) :
    is_hole background y x := by
  intro ch hch
  rw [hc] at hch
  have hpix := h ch hch
  by_cases hs : is_hole sampled y x
  · simpa [fill_holes, hs] using hpix
  · exact absurd (fun ch' hch' => by simpa [fill_holes, hs] using h ch' hch') hs

/-- Claim C8, witness: a 1×1 single-channel frame whose only pixel is a
hole, filled from an all-zero background. -/
theorem fill_holes_no_black_witness :
    is_hole { h := 1, w := 1, c := 1, pix := fun _ _ _ => 0 } 0 0 :=
  fill_holes_no_black { h := 1, w := 1, c := 1, pix := fun _ _ _ => 1 - 1 }
    { h := 1, w := 1, c := 1, pix := fun _ _ _ => 0 } 0 0 rfl
    (fun ch hch => by simp [fill_holes, is_hole])

/-- Claim C3: the Aspect-Fit Resampler always returns a buffer of exactly
the target dimensions — the image and the depth map therefore always end
up with identical dimensions — and for every rescaled size (including
sizes smaller than the target in one or both axes, the defensive padding
case) the crop window fits inside the rescaled buffer and its placement
fits inside the target buffer. -/
theorem aspect_fit_dims (img dep : Img) (tw th : ℕ)
    (rp rpd : ℤ → ℤ → ℕ → ℤ) (new_w new_h : ℤ)
    (hw : 0 ≤ new_w) (hh : 0 ≤ new_h) (htw : 1 ≤ tw) (hth : 1 ≤ th) :
    (resize_with_aspect img tw th rp).w = tw ∧
    (resize_with_aspect img tw th rp).h = th ∧
    (resize_with_aspect dep tw th rpd).w = (resize_with_aspect img tw th rp).w ∧
    (resize_with_aspect dep tw th rpd).h = (resize_with_aspect img tw th rp).h ∧
    (crop_place new_w new_h tw th rp img.c).w = tw ∧
    (crop_place new_w new_h tw th rp img.c).h = th ∧
    (0 ≤ crop_start new_w tw ∧
      crop_start new_w tw + crop_len new_w tw ≤ new_w ∧
      0 ≤ crop_len new_w tw ∧ crop_len new_w tw ≤ (tw : ℤ) ∧
      0 ≤ place_start new_w tw ∧
      place_start new_w tw + crop_len new_w tw ≤ (tw : ℤ)) ∧
    (0 ≤ crop_start new_h th ∧
      crop_start new_h th + crop_len new_h th ≤ new_h ∧
      0 ≤ crop_len new_h th ∧ crop_len new_h th ≤ (th : ℤ) ∧
      0 ≤ place_start new_h th ∧
      place_start new_h th + crop_len new_h th ≤ (th : ℤ)) :=
  ⟨rfl, rfl, rfl, rfl, rfl, rfl,
    crop_region_bounds new_w tw hw htw, crop_region_bounds new_h th hh hth⟩

/-- Claim C3, witness: a 1×1 source fitted to a 4×3 target, with a
rescaled size of 2×5 that is smaller than the target in the horizontal
axis (exercising the padding case). -/
theorem aspect_fit_dims_witness :
    (resize_with_aspect ex_img7 4 3 zero_pix).w = 4 ∧
    (resize_with_aspect ex_img7 4 3 zero_pix).h = 3 ∧
    (resize_with_aspect ex_img7 4 3 zero_pix).w = (resize_with_aspect ex_img7 4 3 zero_pix).w ∧
    (resize_with_aspect ex_img7 4 3 zero_pix).h = (resize_with_aspect ex_img7 4 3 zero_pix).h ∧
    (crop_place 2 5 4 3 zero_pix ex_img7.c).w = 4 ∧
    (crop_place 2 5 4 3 zero_pix ex_img7.c).h = 3 ∧
    (0 ≤ crop_start 2 4 ∧ crop_start 2 4 + crop_len 2 4 ≤ 2 ∧
      0 ≤ crop_len 2 4 ∧ crop_len 2 4 ≤ (4 : ℤ) ∧
      0 ≤ place_start 2 4 ∧ place_start 2 4 + crop_len 2 4 ≤ (4 : ℤ)) ∧
    (0 ≤ crop_start 5 3 ∧ crop_start 5 3 + crop_len 5 3 ≤ 5 ∧
      0 ≤ crop_len 5 3 ∧ crop_len 5 3 ≤ (3 : ℤ) ∧
      0 ≤ place_start 5 3 ∧ place_start 5 3 + crop_len 5 3 ≤ (3 : ℤ)) :=
  aspect_fit_dims ex_img7 ex_img7 4 3 zero_pix zero_pix 2 5
    (by norm_num) (by norm_num) (by norm_num) (by norm_num)

/-- Claim C4, counterexample: sampling the 1×2 image with pixel values
0 and 1 at x = 3/5 gives the blend 3/5; the code outputs 0 (truncation),
while rounding to the nearest integer would give 1. -/
theorem bilinear_not_rounded_counterexample :
    blendQ ex_img2 (3 / 5) 0 0 = 3 / 5 ∧
    bilinear_interpolate ex_img2 (3 / 5) 0 0 = 0 ∧
    round ((3 : ℚ) / 5) = 1 := by
  refine ⟨?_, ?_, ?_⟩
  · norm_num [blendQ, interp_i0, interp_i1, iclip, ex_img2]
  · norm_num [bilinear_interpolate, blendQ, interp_i0, interp_i1, iclip, ex_img2,
      castU8, pyInt]
  · norm_num [round_eq]

/-- Claim C4, amended: each integer output channel value of the Bilinear
Resampler is obtained from the floating-point blend by truncation toward
zero (the floor, for the in-range nonnegative blends), not by rounding to
the nearest integer; the output never exceeds the blend. -/
theorem bilinear_truncates (img : Img) (x y : ℚ) (ch : ℕ)
    (h0 : 0 ≤ blendQ img x y ch) (h255 : blendQ img x y ch ≤ 255) :
    bilinear_interpolate img x y ch = ⌊blendQ img x y ch⌋ ∧
    (bilinear_interpolate img x y ch : ℚ) ≤ blendQ img x y ch := by
  have hc : castU8 (blendQ img x y ch) = ⌊blendQ img x y ch⌋ := castU8_eq_floor h0 h255
  refine ⟨hc, ?_⟩
  rw [bilinear_interpolate, hc]
  exact Int.floor_le _

/-- Claim C4, witness for the amended theorem at the concrete 1×2 image
and x = 3/5. -/
theorem bilinear_truncates_witness :
    bilinear_interpolate ex_img2 (3 / 5) 0 0 = ⌊blendQ ex_img2 (3 / 5) 0 0⌋ ∧
    (bilinear_interpolate ex_img2 (3 / 5) 0 0 : ℚ) ≤ blendQ ex_img2 (3 / 5) 0 0 :=
  bilinear_truncates ex_img2 (3 / 5) 0 0
    (by norm_num [blendQ, interp_i0, interp_i1, iclip, ex_img2])
    (by norm_num [blendQ, interp_i0, interp_i1, iclip, ex_img2])

/-- Claim C5: for any non-empty image, any depth value and any camera
offset, the displaced sample coordinates are clamped into
0 .. w − 1 and 0 .. h − 1, and all four corner indices formed by the
Bilinear Resampler from them are clamped into the same ranges, so every
pixel access of the frame generation is within the image bounds. -/
theorem parallax_access_in_bounds (w h : ℕ) (hw : 1 ≤ w) (hh : 1 ≤ h)
    (x y : ℕ) (d : ℤ) (ox oy ms : ℚ) :
    0 ≤ new_x x d ox ms w ∧ new_x x d ox ms w ≤ (w : ℚ) - 1 ∧
    0 ≤ new_y y d oy ms h ∧ new_y y d oy ms h ≤ (h : ℚ) - 1 ∧
    0 ≤ interp_i0 (new_x x d ox ms w) w ∧
    interp_i0 (new_x x d ox ms w) w ≤ (w : ℤ) - 1 ∧
    0 ≤ interp_i1 (new_x x d ox ms w) w ∧
    interp_i1 (new_x x d ox ms w) w ≤ (w : ℤ) - 1 ∧
    0 ≤ interp_i0 (new_y y d oy ms h) h ∧
    interp_i0 (new_y y d oy ms h) h ≤ (h : ℤ) - 1 ∧
    0 ≤ interp_i1 (new_y y d oy ms h) h ∧
    interp_i1 (new_y y d oy ms h) h ≤ (h : ℤ) - 1 := by
  have hwq : (1 : ℚ) ≤ (w : ℚ) := by exact_mod_cast hw
  have hhq : (1 : ℚ) ≤ (h : ℚ) := by exact_mod_cast hh
  obtain ⟨hx0, hx1⟩ :=
    qclip_bounds ((x : ℚ) + disp_x d ox ms) 0 ((w : ℚ) - 1) (by linarith)
  obtain ⟨hy0, hy1⟩ :=
    qclip_bounds ((y : ℚ) + disp_y d oy ms) 0 ((h : ℚ) - 1) (by linarith)
  obtain ⟨ha, hb, hc, hd'⟩ := interp_bounds (new_x x d ox ms w) w hw
  obtain ⟨he, hf, hg, hi⟩ := interp_bounds (new_y y d oy ms h) h hh
  exact ⟨hx0, hx1, hy0, hy1, ha, hb, hc, hd', he, hf, hg, hi⟩

/-- Claim C5, witness: a 1×1 image at grid position (0, 0), depth 0 and
zero offsets. -/
theorem parallax_access_in_bounds_witness :
    0 ≤ new_x 0 0 0 0 1 ∧ new_x 0 0 0 0 1 ≤ ((1 : ℕ) : ℚ) - 1 ∧
    0 ≤ new_y 0 0 0 0 1 ∧ new_y 0 0 0 0 1 ≤ ((1 : ℕ) : ℚ) - 1 ∧
    0 ≤ interp_i0 (new_x 0 0 0 0 1) 1 ∧
    interp_i0 (new_x 0 0 0 0 1) 1 ≤ ((1 : ℕ) : ℤ) - 1 ∧
    0 ≤ interp_i1 (new_x 0 0 0 0 1) 1 ∧
    interp_i1 (new_x 0 0 0 0 1) 1 ≤ ((1 : ℕ) : ℤ) - 1 ∧
    0 ≤ interp_i0 (new_y 0 0 0 0 1) 1 ∧
    interp_i0 (new_y 0 0 0 0 1) 1 ≤ ((1 : ℕ) : ℤ) - 1 ∧
    0 ≤ interp_i1 (new_y 0 0 0 0 1) 1 ∧
    interp_i1 (new_y 0 0 0 0 1) 1 ≤ ((1 : ℕ) : ℤ) - 1 :=
  parallax_access_in_bounds 1 1 (by norm_num) (by norm_num) 0 0 0 0 0 0

/-- Claim C9: sampling an image with the Bilinear Resampler exactly at an
integer grid position inside the bounds reproduces the stored pixel value
exactly, for any image with 8-bit channel values. -/
theorem bilinear_identity (img : Img) (i j ch : ℕ)
    (hj : j < img.w) (hi : i < img.h)
    (hrange : ∀ a b : ℤ, ∀ k : ℕ, 0 ≤ img.pix a b k ∧ img.pix a b k ≤ 255) :
    bilinear_interpolate img (j : ℚ) (i : ℚ) ch = img.pix i j ch := by
  have hjq : ((j : ℚ) + 1) ≤ (img.w : ℚ) := by exact_mod_cast hj
  have hiq : ((i : ℚ) + 1) ≤ (img.h : ℚ) := by exact_mod_cast hi
  have hx0 : interp_i0 (j : ℚ) img.w = (j : ℤ) := by
    rw [interp_i0_eq (by positivity) (by linarith)]
    exact_mod_cast Int.floor_natCast j
  have hy0 : interp_i0 (i : ℚ) img.h = (i : ℤ) := by
    rw [interp_i0_eq (by positivity) (by linarith)]
    exact_mod_cast Int.floor_natCast i
  have hb : blendQ img (j : ℚ) (i : ℚ) ch = (img.pix i j ch : ℚ) := by
    simp only [blendQ, hx0, hy0]
    push_cast
    ring
  have hr := hrange i j ch
  rw [bilinear_interpolate, hb]
  have h0 : (0 : ℚ) ≤ (img.pix i j ch : ℚ) := by exact_mod_cast hr.1
  have h255 : (img.pix i j ch : ℚ) ≤ 255 := by exact_mod_cast hr.2
  rw [castU8, pyInt_eq_floor h0, Int.floor_intCast]
  exact Int.emod_eq_of_lt hr.1 (by omega)

/-- Claim C9, witness: the constant-7 1×1 image sampled at the grid
position (0, 0). -/
theorem bilinear_identity_witness :
    bilinear_interpolate ex_img7 ((0 : ℕ) : ℚ) ((0 : ℕ) : ℚ) 0 = ex_img7.pix 0 0 0 :=
  bilinear_identity ex_img7 0 0 0 (by norm_num [ex_img7]) (by norm_num [ex_img7])
    (fun a b k => by norm_num [ex_img7])

/-- Claim C10: for images with 8-bit channel values and sample coordinates
inside the image bounds, the blend is a convex combination of the four
clamped corner pixel values, hence lies between their minimum and their
maximum, and in particular inside 0 .. 255, so the final uint8 cast
truncates without wrapping and the output channel value is inside
0 .. 255. -/
theorem bilinear_convex_bounds (img : Img) (x y : ℚ) (ch : ℕ)
    (hx0 : 0 ≤ x) (hx1 : x ≤ (img.w : ℚ) - 1)
    (hy0 : 0 ≤ y) (hy1 : y ≤ (img.h : ℚ) - 1)
    (hrange : ∀ a b : ℤ, ∀ k : ℕ, 0 ≤ img.pix a b k ∧ img.pix a b k ≤ 255) :
    min (min (img.pix (interp_i0 y img.h) (interp_i0 x img.w) ch : ℚ)
             (img.pix (interp_i0 y img.h) (interp_i1 x img.w) ch : ℚ))
        (min (img.pix (interp_i1 y img.h) (interp_i0 x img.w) ch : ℚ)
             (img.pix (interp_i1 y img.h) (interp_i1 x img.w) ch : ℚ)) ≤
      blendQ img x y ch ∧
    blendQ img x y ch ≤
      max (max (img.pix (interp_i0 y img.h) (interp_i0 x img.w) ch : ℚ)
               (img.pix (interp_i0 y img.h) (interp_i1 x img.w) ch : ℚ))
          (max (img.pix (interp_i1 y img.h) (interp_i0 x img.w) ch : ℚ)
               (img.pix (interp_i1 y img.h) (interp_i1 x img.w) ch : ℚ)) ∧
    0 ≤ blendQ img x y ch ∧ blendQ img x y ch ≤ 255 ∧
    bilinear_interpolate img x y ch = ⌊blendQ img x y ch⌋ ∧
    0 ≤ bilinear_interpolate img x y ch ∧
    bilinear_interpolate img x y ch ≤ 255 := by
  have hwx0 : interp_i0 x img.w = ⌊x⌋ := interp_i0_eq hx0 hx1
  have hwy0 : interp_i0 y img.h = ⌊y⌋ := interp_i0_eq hy0 hy1
  have hfx0 : (0 : ℚ) ≤ x - (⌊x⌋ : ℚ) := by linarith [Int.floor_le x]
  have hfx1 : x - (⌊x⌋ : ℚ) ≤ 1 := by linarith [Int.lt_floor_add_one x]
  have hfy0 : (0 : ℚ) ≤ y - (⌊y⌋ : ℚ) := by linarith [Int.floor_le y]
  have hfy1 : y - (⌊y⌋ : ℚ) ≤ 1 := by linarith [Int.lt_floor_add_one y]
  rw [hwx0, hwy0]
  have hb : blendQ img x y ch =
      (img.pix ⌊y⌋ ⌊x⌋ ch : ℚ) * (1 - (x - (⌊x⌋ : ℚ))) * (1 - (y - (⌊y⌋ : ℚ))) +
        (img.pix ⌊y⌋ (interp_i1 x img.w) ch : ℚ) * (x - (⌊x⌋ : ℚ)) * (1 - (y - (⌊y⌋ : ℚ))) +
        (img.pix (interp_i1 y img.h) ⌊x⌋ ch : ℚ) * (1 - (x - (⌊x⌋ : ℚ))) * (y - (⌊y⌋ : ℚ)) +
        (img.pix (interp_i1 y img.h) (interp_i1 x img.w) ch : ℚ) *
          (x - (⌊x⌋ : ℚ)) * (y - (⌊y⌋ : ℚ)) := by
    simp only [blendQ, hwx0, hwy0]
  obtain ⟨hlb, hub⟩ := blend_bounds
    (img.pix ⌊y⌋ ⌊x⌋ ch : ℚ) (img.pix ⌊y⌋ (interp_i1 x img.w) ch : ℚ)
    (img.pix (interp_i1 y img.h) ⌊x⌋ ch : ℚ)
    (img.pix (interp_i1 y img.h) (interp_i1 x img.w) ch : ℚ)
    (x - (⌊x⌋ : ℚ)) (y - (⌊y⌋ : ℚ)) hfx0 hfx1 hfy0 hfy1
  rw [← hb] at hlb hub
  have h00 := hrange ⌊y⌋ ⌊x⌋ ch
  have h01 := hrange ⌊y⌋ (interp_i1 x img.w) ch
  have h10 := hrange (interp_i1 y img.h) ⌊x⌋ ch
  have h11 := hrange (interp_i1 y img.h) (interp_i1 x img.w) ch
  have hN0 : (0 : ℚ) ≤ min (min (img.pix ⌊y⌋ ⌊x⌋ ch : ℚ)
      (img.pix ⌊y⌋ (interp_i1 x img.w) ch : ℚ))
      (min (img.pix (interp_i1 y img.h) ⌊x⌋ ch : ℚ)
        (img.pix (interp_i1 y img.h) (interp_i1 x img.w) ch : ℚ)) := by
    refine le_min (le_min ?_ ?_) (le_min ?_ ?_)
    · exact_mod_cast h00.1
    · exact_mod_cast h01.1
    · exact_mod_cast h10.1
    · exact_mod_cast h11.1
  have hM255 : max (max (img.pix ⌊y⌋ ⌊x⌋ ch : ℚ)
      (img.pix ⌊y⌋ (interp_i1 x img.w) ch : ℚ))
      (max (img.pix (interp_i1 y img.h) ⌊x⌋ ch : ℚ)
        (img.pix (interp_i1 y img.h) (interp_i1 x img.w) ch : ℚ)) ≤ 255 := by
    refine max_le (max_le ?_ ?_) (max_le ?_ ?_)
    · exact_mod_cast h00.2
    · exact_mod_cast h01.2
    · exact_mod_cast h10.2
    · exact_mod_cast h11.2
  have hblend0 : (0 : ℚ) ≤ blendQ img x y ch := le_trans hN0 hlb
  have hblend255 : blendQ img x y ch ≤ 255 := le_trans hub hM255
  have hfl0 : 0 ≤ ⌊blendQ img x y ch⌋ := Int.floor_nonneg.mpr hblend0
  have hfl255 : ⌊blendQ img x y ch⌋ ≤ 255 := by
    have hq := le_trans (Int.floor_le (blendQ img x y ch)) hblend255
    exact_mod_cast hq
  have hcast : bilinear_interpolate img x y ch = ⌊blendQ img x y ch⌋ := by
    rw [bilinear_interpolate, castU8, pyInt_eq_floor hblend0]
    exact Int.emod_eq_of_lt hfl0 (by omega)
  exact ⟨hlb, hub, hblend0, hblend255, hcast, by rw [hcast]; exact hfl0,
    by rw [hcast]; exact hfl255⟩

/-- Claim C10, witness: the 1×2 image with pixel values 0 and 1 sampled
at x = 3/5, y = 0. -/
theorem bilinear_convex_bounds_witness :
    min (min (ex_img2.pix (interp_i0 0 ex_img2.h) (interp_i0 (3 / 5) ex_img2.w) 0 : ℚ)
             (ex_img2.pix (interp_i0 0 ex_img2.h) (interp_i1 (3 / 5) ex_img2.w) 0 : ℚ))
        (min (ex_img2.pix (interp_i1 0 ex_img2.h) (interp_i0 (3 / 5) ex_img2.w) 0 : ℚ)
             (ex_img2.pix (interp_i1 0 ex_img2.h) (interp_i1 (3 / 5) ex_img2.w) 0 : ℚ)) ≤
      blendQ ex_img2 (3 / 5) 0 0 ∧
    blendQ ex_img2 (3 / 5) 0 0 ≤
      max (max (ex_img2.pix (interp_i0 0 ex_img2.h) (interp_i0 (3 / 5) ex_img2.w) 0 : ℚ)
               (ex_img2.pix (interp_i0 0 ex_img2.h) (interp_i1 (3 / 5) ex_img2.w) 0 : ℚ))
          (max (ex_img2.pix (interp_i1 0 ex_img2.h) (interp_i0 (3 / 5) ex_img2.w) 0 : ℚ)
               (ex_img2.pix (interp_i1 0 ex_img2.h) (interp_i1 (3 / 5) ex_img2.w) 0 : ℚ)) ∧
    0 ≤ blendQ ex_img2 (3 / 5) 0 0 ∧ blendQ ex_img2 (3 / 5) 0 0 ≤ 255 ∧
    bilinear_interpolate ex_img2 (3 / 5) 0 0 = ⌊blendQ ex_img2 (3 / 5) 0 0⌋ ∧
    0 ≤ bilinear_interpolate ex_img2 (3 / 5) 0 0 ∧
    bilinear_interpolate ex_img2 (3 / 5) 0 0 ≤ 255 :=
  bilinear_convex_bounds ex_img2 (3 / 5) 0 0 (by norm_num)
    (by norm_num [ex_img2]) (by norm_num) (by norm_num [ex_img2])
    (fun a b k => by dsimp [ex_img2]; split <;> norm_num)

end Tiefling
